import Mathlib

/-!
Verification development for the commit and object-ingest core of the
content-addressed repository in `src/libostree/ostree-repo-commit.c`.

The embedding models each C function as a pure Lean function.  File-system
effects are made explicit: the repository state (`Repo`) carries the set of
placed loose objects, the temp-directory contents, the pending transaction
refs, the applied refs namespace, the transaction statistics, and the
`transaction` symlink marker.  Syscall outcomes that the code branches on
(`mkdirat` / `renameat` errno, tmp cleanup, ref-updater and unlink results)
are passed in as oracle parameters.  Each write produces a `trace` of the
security-relevant operations performed on the temp file, in order, so that
the within-object ordering invariants can be stated directly.

SHA-256 itself is kept abstract: the object writer takes a `hash` function
from the raw canonical byte stream to the hex checksum string, exactly as
the checksum input-stream wrapper feeds the raw bytes to the digest engine.
-/

/-- Object kinds (`OstreeObjectType`): `FILE`, `DIR_TREE`, `DIR_META`, `COMMIT`. -/
inductive ObjType
  | file
  | dirTree
  | dirMeta
  | commit
deriving DecidableEq

/-- `OSTREE_OBJECT_TYPE_IS_META`: every kind except `FILE` is metadata. -/
def ObjType.isMeta : ObjType → Bool
  | .file => false
  | _ => true

/-- Repository storage modes (`OstreeRepoMode`): `BARE` and `ARCHIVE_Z2`. -/
inductive RepoMode
  | bare
  | archiveZ2
deriving DecidableEq

/-- The file types `write_object` distinguishes for `FILE` objects: regular,
symbolic link, or anything else (`special`, rejected as not-supported). -/
inductive FileType
  | regular
  | symlink
  | special
deriving DecidableEq

/-- Outcome of a syscall the code inspects `errno` of: success, `EEXIST`,
or any other failure. -/
inductive SysRes
  | ok
  | errEEXIST
  | errOther
deriving DecidableEq

/-- Error taxonomy of the core (GError kinds used by the code). -/
inductive Err
  | precondition
  | notSupported
  | io
  | remote
  | corrupt (kind : ObjType) (expected actual : String)
deriving DecidableEq

/-- Security-relevant operations performed on a temp file or the object
store, recorded in order of execution. -/
inductive Event
  | writeBody
  | mksymlink
  | fchownat
  | setxattr
  | fchmod
  | fsync
  | mkdirLoose
  | rename
  | unlinkTmp
deriving DecidableEq

/-- `OstreeRepoTransactionStats`. -/
structure Stats where
  metadata_objects_written : Nat := 0
  content_objects_written : Nat := 0
  content_bytes_written : Nat := 0
  metadata_objects_total : Nat := 0
  content_objects_total : Nat := 0
deriving DecidableEq

/-- The repository state visible to this core: `OstreeRepo` fields touched by
`ostree-repo-commit.c` plus the on-disk object store, temp dir, and the refs
namespace owned by the external ref updater. -/
structure Repo where
  mode : RepoMode
  in_transaction : Bool
  /-- Loose objects present in `objects/`, keyed by (hex checksum, kind);
  the loose path is the injective image `objects/c[0:2]/c[2:64].<suffix>`. -/
  objects : List (String × ObjType)
  /-- `txn_refs`: `NULL` or the pending refspec → checksum-or-delete map. -/
  txn_refs : Option (List (String × Option String))
  txn_stats : Stats
  /-- Whether the `transaction` symlink exists at the repo root. -/
  transaction_lock_exists : Bool
  /-- Names of files currently present in `tmp/`. -/
  tmp_files : List String
  /-- `loose_object_devino_hash`: `NULL` or the (dev, ino) → checksum cache. -/
  loose_object_devino_hash : Option (List ((Nat × Nat) × List Char))
  /-- The refs namespace applied by `_ostree_repo_update_refs`. -/
  refs : List (String × String)
deriving DecidableEq

/-- `_ostree_repo_has_loose_object`: whether the loose file for this
checksum and kind exists in `objects/`. -/
def hasLooseObject (repo : Repo) (checksum : String) (objtype : ObjType) : Bool :=
  decide ((checksum, objtype) ∈ repo.objects)

/-- The attribute record parsed out of a canonical `FILE` stream by
`ostree_content_stream_parse`. -/
structure FileInfo where
  ftype : FileType
  uid : Nat
  gid : Nat
  mode : Nat
  symlink_target : String
deriving DecidableEq

/-- Parsed `FILE` content: file info, optional xattrs variant, payload. -/
structure ContentInput where
  info : FileInfo
  xattrs : Option (List (String × List Nat))
  payload : List Nat
deriving DecidableEq

/-- An object input stream: the raw canonical bytes (what the checksum
engine digests) together with its parse as `FILE` content (only meaningful
when the object type is `FILE`). -/
structure ObjInput where
  raw : List Nat
  content : ContentInput
deriving DecidableEq

deriving instance DecidableEq for Except

/-- Result of `write_object`: the returned value (`out_csum` when requested),
the repository state afterwards, and the ordered trace of temp-file and
object-store operations. -/
structure WriteResult where
  res : Except Err (Option String)
  repo : Repo
  trace : List Event
deriving DecidableEq

/-- `commit_loose_object_trusted`: ensure the two-hex-prefix directory exists
(`mkdirat`, `EEXIST` tolerated), then `renameat` the temp file into the loose
path; an `EEXIST` rename unlinks the temp and counts as success. -/
def commitLooseObjectTrusted (mkdirRes renameRes : SysRes) (repo : Repo)
    (checksum : String) (objtype : ObjType) (tempfile_name : String) :
    Except Err Unit × Repo × List Event :=
  if mkdirRes = .errOther then
    (.error .io, repo, [.mkdirLoose])
  else
    match renameRes with
    | .ok =>
        (.ok (),
         { repo with
            objects := (checksum, objtype) :: repo.objects,
            tmp_files := repo.tmp_files.erase tempfile_name },
         [.mkdirLoose, .rename])
    | .errEEXIST =>
        (.ok (),
         { repo with tmp_files := repo.tmp_files.erase tempfile_name },
         [.mkdirLoose, .rename, .unlinkTmp])
    | .errOther =>
        (.error .io, repo, [.mkdirLoose, .rename])

/-- The checksum used for placement: the computed hash when a digest was
requested, else the caller-supplied expected checksum. -/
def resolvedChecksum (hash : List Nat → String) (expected : Option String)
    (wantCsum : Bool) (input : ObjInput) : String :=
  if wantCsum then hash input.raw else expected.getD ""

/-- The early-return fast path of `write_object`: an expected checksum was
supplied and its loose object already exists. -/
def fastPathHit (repo : Repo) (objtype : ObjType) (expected : Option String) : Bool :=
  match expected with
  | some e => hasLooseObject repo e objtype
  | none => false

/-- Whether the computed checksum contradicts the expected one
(`strcmp (actual_checksum, expected_checksum) != 0`). -/
def checksumMismatch (hash : List Nat → String) (expected : Option String)
    (wantCsum : Bool) (input : ObjInput) : Bool :=
  wantCsum && (match expected with
    | some e => decide (hash input.raw ≠ e)
    | none => false)

/-- Stats update of `write_object`, under `txn_stats_lock`: bump the written
counters only when this call placed the object, bump totals always. -/
def bumpStats (objtype : ObjType) (file_object_length : Nat) (do_commit : Bool)
    (s : Stats) : Stats :=
  let s1 :=
    if do_commit then
      if objtype.isMeta then
        { s with metadata_objects_written := s.metadata_objects_written + 1 }
      else
        { s with
            content_objects_written := s.content_objects_written + 1,
            content_bytes_written := s.content_bytes_written + file_object_length }
    else s
  if objtype.isMeta then
    { s1 with metadata_objects_total := s1.metadata_objects_total + 1 }
  else
    { s1 with content_objects_total := s1.content_objects_total + 1 }

/-- The temp-file materialization step of `write_object`: a bare symlink is
created with `symlinkat`; every other case creates a 0644 temp regular file
and splices the body (plus, in archive mode, the serialized header). -/
def materializeEvents (repo_mode : RepoMode) (objtype : ObjType)
    (c : ContentInput) : List Event :=
  if objtype = .file ∧ repo_mode = .bare ∧ c.info.ftype = .symlink then
    [.mksymlink]
  else
    [.writeBody]

/-- Attribute application for a newly written `FILE` object in `BARE` mode:
`fchownat`, then xattrs when present, then (for non-symlinks only) `fchmod`
followed by `fsync`. -/
def bareAttrEvents (repo_mode : RepoMode) (objtype : ObjType)
    (c : ContentInput) : List Event :=
  if objtype = .file ∧ repo_mode = .bare then
    [.fchownat]
      ++ (if c.xattrs.isSome then [.setxattr] else [])
      ++ (if c.info.ftype = .symlink then [] else [.fchmod, .fsync])
  else []

/-- Body of `write_object` after the precondition checks and the fast path:
parse/classify, materialize the temp file, resolve and verify the checksum,
apply attributes, place via `commit_loose_object_trusted`, update stats; on
any failure unlink the temp file before returning. -/
def writeObjectSlow (hash : List Nat → String) (mkdirRes renameRes : SysRes)
    (repo : Repo) (objtype : ObjType) (expected : Option String)
    (input : ObjInput) (file_object_length : Nat) (wantCsum : Bool)
    (temp_filename : String) : WriteResult :=
  if objtype = .file ∧ input.content.info.ftype = .special then
    ⟨.error .notSupported, repo, []⟩
  else
    let matEv := materializeEvents repo.mode objtype input.content
    let repo1 : Repo := { repo with tmp_files := temp_filename :: repo.tmp_files }
    if checksumMismatch hash expected wantCsum input then
      ⟨.error (.corrupt objtype (expected.getD "") (hash input.raw)),
       { repo1 with tmp_files := repo1.tmp_files.erase temp_filename },
       matEv ++ [.unlinkTmp]⟩
    else
      let actual := resolvedChecksum hash expected wantCsum input
      if hasLooseObject repo1 actual objtype then
        ⟨.ok (if wantCsum then some actual else none),
         { repo1 with
            tmp_files := repo1.tmp_files.erase temp_filename,
            txn_stats := bumpStats objtype file_object_length false repo1.txn_stats },
         matEv ++ [.unlinkTmp]⟩
      else
        let attrEv := bareAttrEvents repo1.mode objtype input.content
        match commitLooseObjectTrusted mkdirRes renameRes repo1 actual objtype temp_filename with
        | (.error e, repo2, ev) =>
            ⟨.error e,
             { repo2 with tmp_files := repo2.tmp_files.erase temp_filename },
             matEv ++ attrEv ++ ev ++ [.unlinkTmp]⟩
        | (.ok _, repo2, ev) =>
            ⟨.ok (if wantCsum then some actual else none),
             { repo2 with txn_stats := bumpStats objtype file_object_length true repo2.txn_stats },
             matEv ++ attrEv ++ ev⟩

/-- `write_object`: requires an open transaction and at least one of an
expected checksum or a digest request; returns early when the expected
object already exists. -/
def writeObject (hash : List Nat → String) (mkdirRes renameRes : SysRes)
    (repo : Repo) (objtype : ObjType) (expected : Option String)
    (input : ObjInput) (file_object_length : Nat) (wantCsum : Bool)
    (temp_filename : String) : WriteResult :=
  if repo.in_transaction = false then
    ⟨.error .precondition, repo, []⟩
  else if expected = none ∧ wantCsum = false then
    ⟨.error .precondition, repo, []⟩
  else if fastPathHit repo objtype expected then
    ⟨.ok none, repo, []⟩
  else
    writeObjectSlow hash mkdirRes renameRes repo objtype expected input
      file_object_length wantCsum temp_filename

/-- `ostree_repo_write_content`. -/
def ostree_repo_write_content (hash : List Nat → String) (mkdirRes renameRes : SysRes)
    (repo : Repo) (expected_checksum : Option String) (object_input : ObjInput)
    (length : Nat) (wantCsum : Bool) (temp_filename : String) : WriteResult :=
  writeObject hash mkdirRes renameRes repo .file expected_checksum object_input
    length wantCsum temp_filename

/-- `ostree_repo_write_content_trusted`: the checksum is trusted, no digest
is computed (`out_csum = NULL`). -/
def ostree_repo_write_content_trusted (hash : List Nat → String)
    (mkdirRes renameRes : SysRes) (repo : Repo) (checksum : String)
    (object_input : ObjInput) (length : Nat) (temp_filename : String) : WriteResult :=
  writeObject hash mkdirRes renameRes repo .file (some checksum) object_input
    length false temp_filename

/-- `ostree_repo_write_metadata` (the variant is normalized and streamed;
`file_object_length` is 0 for metadata). -/
def ostree_repo_write_metadata (hash : List Nat → String) (mkdirRes renameRes : SysRes)
    (repo : Repo) (objtype : ObjType) (expected_checksum : Option String)
    (object_input : ObjInput) (wantCsum : Bool) (temp_filename : String) : WriteResult :=
  writeObject hash mkdirRes renameRes repo objtype expected_checksum object_input
    0 wantCsum temp_filename

/-- `ostree_repo_write_metadata_trusted`. -/
def ostree_repo_write_metadata_trusted (hash : List Nat → String)
    (mkdirRes renameRes : SysRes) (repo : Repo) (objtype : ObjType)
    (checksum : String) (object_input : ObjInput) (temp_filename : String) : WriteResult :=
  writeObject hash mkdirRes renameRes repo objtype (some checksum) object_input
    0 false temp_filename

/-- `ostree_repo_prepare_transaction`: refuses when already in-transaction;
reports resumption when the `transaction` symlink already exists, zeroes the
stats, marks in-transaction and (re)creates the symlink. -/
def ostree_repo_prepare_transaction (repo : Repo) : Except Err (Repo × Bool) :=
  if repo.in_transaction = true then
    .error .precondition
  else
    let resume := repo.transaction_lock_exists
    .ok ({ repo with
            txn_stats := {},
            in_transaction := true,
            transaction_lock_exists := true },
         resume)

/-- `ensure_txn_refs`: the pending-refs map, allocated on first use. -/
def ensureTxnRefs (repo : Repo) : List (String × Option String) :=
  repo.txn_refs.getD []

/-- `g_hash_table_replace` on a string-keyed map modelled as an association
list with distinct keys: the new binding replaces any previous one. -/
def hashReplace (m : List (String × Option String)) (k : String)
    (v : Option String) : List (String × Option String) :=
  (k, v) :: m.filter (fun p => decide (p.1 ≠ k))

/-- `ostree_repo_transaction_set_refspec`. -/
def ostree_repo_transaction_set_refspec (repo : Repo) (refspec : String)
    (checksum : Option String) : Except Err Repo :=
  if repo.in_transaction = false then
    .error .precondition
  else
    .ok { repo with txn_refs := some (hashReplace (ensureTxnRefs repo) refspec checksum) }

/-- `ostree_repo_transaction_set_ref`: concatenates `remote:ref` (or just
`ref`) and records the binding like `set_refspec`. -/
def ostree_repo_transaction_set_ref (repo : Repo) (remote : Option String)
    (ref : String) (checksum : Option String) : Except Err Repo :=
  if repo.in_transaction = false then
    .error .precondition
  else
    let refspec := match remote with
      | some r => r ++ ":" ++ ref
      | none => ref
    .ok { repo with txn_refs := some (hashReplace (ensureTxnRefs repo) refspec checksum) }

/-- One ref update as applied to the refs namespace: a checksum writes the
binding, a null checksum deletes it. -/
def refsApplyOne (refs : List (String × String)) (u : String × Option String) :
    List (String × String) :=
  match u.2 with
  | some c => (u.1, c) :: refs.filter (fun p => decide (p.1 ≠ u.1))
  | none => refs.filter (fun p => decide (p.1 ≠ u.1))

/-- Modelled from the spec: `_ostree_repo_update_refs` is an external
collaborator (not part of this source file); per the interface contract it
atomically applies the pending map to the refs namespace, a null checksum
meaning delete. -/
def updateRefs (refs : List (String × String))
    (updates : List (String × Option String)) : List (String × String) :=
  updates.foldl refsApplyOne refs

/-- Tail of `ostree_repo_commit_transaction` after the ref update: clear
`in_transaction`, then unlink the `transaction` symlink (which can itself
fail, after the flag is already cleared), then return the stats. -/
def commitTransactionFinish (unlinkOk : Bool) (repo : Repo) :
    Except Err Stats × Repo :=
  let repo1 : Repo := { repo with in_transaction := false }
  if unlinkOk = false then
    (.error .io, repo1)
  else
    (.ok repo1.txn_stats, { repo1 with transaction_lock_exists := false })

/-- `ostree_repo_commit_transaction`: clean `tmp/`, clear the devino cache,
apply pending refs when present, clear them, then finish.  The three oracle
booleans give the outcomes of tmp cleanup, the ref updater and the symlink
unlink. -/
def ostree_repo_commit_transaction (cleanupOk updateRefsOk unlinkOk : Bool)
    (repo : Repo) : Except Err Stats × Repo :=
  if repo.in_transaction = false then
    (.error .precondition, repo)
  else if cleanupOk = false then
    (.error .io, repo)
  else
    let repo1 : Repo := { repo with
      tmp_files := [],
      loose_object_devino_hash := repo.loose_object_devino_hash.map (fun _ => []) }
    match repo1.txn_refs with
    | some pending =>
        if updateRefsOk = false then
          (.error .remote, repo1)
        else
          commitTransactionFinish unlinkOk
            { repo1 with refs := updateRefs repo1.refs pending, txn_refs := none }
    | none =>
        commitTransactionFinish unlinkOk { repo1 with txn_refs := none }

/-- `ostree_repo_abort_transaction`: a no-op outside a transaction; otherwise
clean `tmp/`, clear the devino cache and pending refs, and clear the
in-transaction flag.  The `transaction` symlink is left in place. -/
def ostree_repo_abort_transaction (cleanupOk : Bool) (repo : Repo) :
    Except Err Unit × Repo :=
  if repo.in_transaction = false then
    (.ok (), repo)
  else if cleanupOk = false then
    (.error .io, repo)
  else
    (.ok (), { repo with
                tmp_files := [],
                loose_object_devino_hash := repo.loose_object_devino_hash.map (fun _ => []),
                txn_refs := none,
                in_transaction := false })

/-- The `prepare → abort` scenario: start a transaction on `repo` and abort
it immediately (error cases collapse to the input state). -/
def prepareAbortRun (repo : Repo) : Repo :=
  match ostree_repo_prepare_transaction repo with
  | .error _ => repo
  | .ok (started, _) => (ostree_repo_abort_transaction true started).2

/-- A recorded `set_ref` / `set_refspec` call within a transaction. -/
inductive RefOp
  | set_refspec (refspec : String) (checksum : Option String)
  | set_ref (remote : Option String) (ref : String) (checksum : Option String)
deriving DecidableEq

/-- The refspec key a `RefOp` writes: `remote:ref` or the plain ref. -/
def RefOp.key : RefOp → String
  | .set_refspec r _ => r
  | .set_ref (some remote) ref _ => remote ++ ":" ++ ref
  | .set_ref none ref _ => ref

/-- The checksum a `RefOp` records (`none` meaning delete-on-commit). -/
def RefOp.csum : RefOp → Option String
  | .set_refspec _ c => c
  | .set_ref _ _ c => c

/-- Run a sequence of `set_ref` / `set_refspec` calls. -/
def applyRefOps : Repo → List RefOp → Except Err Repo
  | repo, [] => .ok repo
  | repo, op :: rest =>
      match (match op with
        | .set_refspec r c => ostree_repo_transaction_set_refspec repo r c
        | .set_ref rem ref c => ostree_repo_transaction_set_ref repo rem ref c) with
      | .error e => .error e
      | .ok repo1 => applyRefOps repo1 rest

/-- The repository state after a sequence of successful ref-set calls. -/
def refOpsResult : Repo → List RefOp → Repo
  | repo, [] => repo
  | repo, op :: rest =>
      refOpsResult
        { repo with txn_refs := some (hashReplace (ensureTxnRefs repo) op.key op.csum) }
        rest

/-- The pending-refs map after a sequence of replacements. -/
def pendingRefsAfter : List (String × Option String) → List RefOp →
    List (String × Option String)
  | m, [] => m
  | m, op :: rest => pendingRefsAfter (hashReplace m op.key op.csum) rest

/-- The checksum of the most recent call for a given refspec, when any. -/
def lastCsumFor : List RefOp → String → Option (Option String)
  | [], _ => none
  | op :: rest, rs =>
      match lastCsumFor rest rs with
      | some c => some c
      | none => if op.key = rs then some op.csum else none

/-- Association-list lookup (first binding wins; maps built by `hashReplace`
keep keys distinct so there is at most one). -/
def alookup {β : Type} (k : String) : List (String × β) → Option β
  | [] => none
  | (k1, v) :: rest => if k1 = k then some v else alookup k rest

/-- One child of an `objects/XX/` directory as reported by the enumerator:
its byte-string name, whether it is a subdirectory, and its stat device and
inode numbers. -/
structure DirEntryInfo where
  name : List Char
  is_dir : Bool
  dev : Nat
  ino : Nat
deriving DecidableEq

/-- One `objects/XX/` directory: its basename and its children. -/
structure LooseObjDir where
  dirname : List Char
  entries : List DirEntryInfo
deriving DecidableEq

/-- The `".file"` suffix tested by `scan_loose_devino`. -/
def fileSuffix : List Char := ['.', 'f', 'i', 'l', 'e']

/-- The suffix skip test of `scan_loose_devino`: both `ARCHIVE_Z2` and
`BARE` fall through to the same `".file"` check. -/
def scanSuffixSkip (repo_mode : RepoMode) (name : List Char) : Bool :=
  match repo_mode with
  | .archiveZ2 | .bare => ! (fileSuffix.isSuffixOf name)

/-- `dot - name` for `dot = strrchr (name, '.')`: the number of characters
before the last dot. -/
def stemLen (name : List Char) : Nat :=
  name.length - 1 - name.reverse.findIdx (fun c => c == '.')

/-- `g_hash_table_replace` on the devino cache. -/
def devinoReplace (cache : List ((Nat × Nat) × List Char)) (key : Nat × Nat)
    (checksum : List Char) : List ((Nat × Nat) × List Char) :=
  (key, checksum) :: cache.filter (fun p => decide (p.1 ≠ key))

/-- Processing of one enumerated child by `scan_loose_devino`: skip
subdirectories, skip names failing the suffix test, skip stems that are not
62 characters, and otherwise record `(dev, ino) → dirname ++ stem`. -/
def scanEntryStep (repo_mode : RepoMode) (dirname : List Char)
    (cache : List ((Nat × Nat) × List Char)) (e : DirEntryInfo) :
    List ((Nat × Nat) × List Char) :=
  if e.is_dir = true then cache
  else if scanSuffixSkip repo_mode e.name = true then cache
  else if stemLen e.name ≠ 62 then cache
  else devinoReplace cache (e.dev, e.ino) (dirname ++ e.name.take 62)

/-- The per-repository part of `scan_loose_devino`: enumerate every
`objects/XX/` directory of this repository. -/
def scanLooseDevinoDirs (repo_mode : RepoMode) (dirs : List LooseObjDir)
    (cache : List ((Nat × Nat) × List Char)) : List ((Nat × Nat) × List Char) :=
  dirs.foldl (fun c d => d.entries.foldl (scanEntryStep repo_mode d.dirname) c) cache

/-- `scan_loose_devino` over the repository chain, listed self-first: the
parent chain is scanned before the repository itself. -/
def scanLooseDevino : List (RepoMode × List LooseObjDir) →
    List ((Nat × Nat) × List Char) → List ((Nat × Nat) × List Char)
  | [], cache => cache
  | (m, dirs) :: parents, cache => scanLooseDevinoDirs m dirs (scanLooseDevino parents cache)

/-- The acceptance condition `scan_loose_devino` actually applies to a child
entry: not a directory, name ends in `".file"` (in either storage mode), and
the stem before the last dot has exactly 62 characters. -/
def scanAccepts (e : DirEntryInfo) : Prop :=
  e.is_dir = false ∧ fileSuffix.isSuffixOf e.name = true ∧ stemLen e.name = 62

instance (e : DirEntryInfo) : Decidable (scanAccepts e) := by
  unfold scanAccepts; infer_instance

/-- `create_tree_variant_from_hashes`: sort the file names and the subdir
names ascending (by `strcmp`), then emit `(files, dirs)` with the checksums
looked up per name.  The serialized variant is modelled structurally as the
two lists. -/
def create_tree_variant_from_hashes (file_checksums : List (String × String))
    (dir_contents_checksums dir_metadata_checksums : List (String × String)) :
    List (String × String) × List (String × String × String) :=
  let sorted_filenames := List.insertionSort (· ≤ ·) (file_checksums.map Prod.fst)
  let files := sorted_filenames.map
    (fun name => (name, (alookup name file_checksums).getD ""))
  let sorted_dirnames := List.insertionSort (· ≤ ·) (dir_metadata_checksums.map Prod.fst)
  let dirs := sorted_dirnames.map
    (fun name => (name, (alookup name dir_contents_checksums).getD "",
                  (alookup name dir_metadata_checksums).getD ""))
  (files, dirs)

/-- The serialization step of `ostree_repo_write_mtree` for one node: the
subdir map yields the two per-name checksum tables (contents and metadata)
over the same key set, which are then serialized together with the file
map. -/
def writeMtreeVariant (files : List (String × String))
    (subdirs : List (String × String × String)) :
    List (String × String) × List (String × String × String) :=
  create_tree_variant_from_hashes files
    (subdirs.map (fun d => (d.1, d.2.1)))
    (subdirs.map (fun d => (d.1, d.2.2)))

/-- The trusted-duplicate scenario: two `write_content_trusted` calls with
the same checksum and content inside one transaction. -/
def twoTrustedWrites (hash : List Nat → String) (repo : Repo) (checksum : String)
    (input : ObjInput) (length : Nat) (t1 t2 : String) : WriteResult × WriteResult :=
  let r1 := ostree_repo_write_content_trusted hash .ok .ok repo checksum input length t1
  let r2 := ostree_repo_write_content_trusted hash .ok .ok r1.repo checksum input length t2
  (r1, r2)

/-- A 64-character checksum string used in concrete scenarios. -/
def csumA : String :=
  String.mk (List.replicate 64 'a')

/-- A second, different 64-character checksum string. -/
def csumB : String :=
  String.mk (List.replicate 64 'b')

/-- A constant hash oracle. -/
def constHash (s : String) : List Nat → String := fun _ => s

/-- A canonical regular-file input: body `"hello\n"`, mode 0644, no xattrs. -/
def sampleInput : ObjInput :=
  { raw := [104, 101, 108, 108, 111, 10],
    content :=
      { info := { ftype := .regular, uid := 0, gid := 0, mode := 420, symlink_target := "" },
        xattrs := none,
        payload := [104, 101, 108, 108, 111, 10] } }

/-- The same file content presented as a symlink `FILE` object. -/
def symlinkInput : ObjInput :=
  { raw := [1, 2, 3],
    content :=
      { info := { ftype := .symlink, uid := 0, gid := 0, mode := 511, symlink_target := "t" },
        xattrs := none,
        payload := [] } }

/-- A bare-mode repository inside an open, fresh transaction. -/
def repo0 : Repo :=
  { mode := .bare, in_transaction := true, objects := [], txn_refs := none,
    txn_stats := {}, transaction_lock_exists := true, tmp_files := [],
    loose_object_devino_hash := none, refs := [] }

/-- A bare-mode repository at rest (no transaction open, no stale symlink). -/
def repoIdle : Repo :=
  { mode := .bare, in_transaction := false, objects := [], txn_refs := none,
    txn_stats := {}, transaction_lock_exists := false, tmp_files := ["stale"],
    loose_object_devino_hash := none, refs := [("main", "c0")] }

/-- C3: placing a temp file into the store treats an `EEXIST` from the
prefix `mkdir` exactly like success; a rename failing with `EEXIST` unlinks
the temp file and returns success without touching the store; any other
`mkdir` or `rename` failure is propagated as an error. -/
theorem commit_loose_object_eexist_policy (repo : Repo) (c : String)
    (ot : ObjType) (t : String) :
    (∀ rres, commitLooseObjectTrusted .errEEXIST rres repo c ot t =
        commitLooseObjectTrusted .ok rres repo c ot t)
    ∧ ((commitLooseObjectTrusted .ok .errEEXIST repo c ot t).1 = .ok ()
        ∧ (commitLooseObjectTrusted .ok .errEEXIST repo c ot t).2.1.tmp_files =
            repo.tmp_files.erase t
        ∧ (commitLooseObjectTrusted .ok .errEEXIST repo c ot t).2.1.objects =
            repo.objects)
    ∧ (∀ rres, (commitLooseObjectTrusted .errOther rres repo c ot t).1 = .error .io)
    ∧ (commitLooseObjectTrusted .ok .errOther repo c ot t).1 = .error .io := by
  refine ⟨fun rres => ?_, ⟨rfl, rfl, rfl⟩, fun rres => rfl, rfl⟩
  simp [commitLooseObjectTrusted]

/-- C9: `write_object` (hence every `write_content`, `write_content_trusted`,
`write_metadata`, `write_metadata_trusted` call, which all delegate to it)
rejects a call made outside a transaction, and a call supplying neither an
expected checksum nor a digest request, as a caller error before any I/O is
performed: the state is untouched and the operation trace is empty. -/
theorem write_object_preconditions (hash : List Nat → String)
    (mres rres : SysRes) (repo : Repo) (objtype : ObjType)
    (expected : Option String) (input : ObjInput) (len : Nat)
    (wantCsum : Bool) (t : String) :
    (repo.in_transaction = false →
      writeObject hash mres rres repo objtype expected input len wantCsum t =
        ⟨.error .precondition, repo, []⟩)
    ∧ (expected = none → wantCsum = false →
      writeObject hash mres rres repo objtype expected input len wantCsum t =
        ⟨.error .precondition, repo, []⟩) := by
  constructor
  · intro h
    simp [writeObject, h]
  · intro he hw
    by_cases htx : repo.in_transaction = false
    · simp [writeObject, htx]
    · simp [writeObject, htx, he, hw]

/-- C9 witness: a concrete out-of-transaction call and a concrete call with
neither checksum argument are both rejected with no I/O. -/
theorem write_object_preconditions_witness :
    repoIdle.in_transaction = false
    ∧ writeObject (constHash csumA) .ok .ok repoIdle .file (some csumA)
        sampleInput 6 false "t0" = ⟨.error .precondition, repoIdle, []⟩
    ∧ writeObject (constHash csumA) .ok .ok repo0 .file none
        sampleInput 6 false "t0" = ⟨.error .precondition, repo0, []⟩ :=
  ⟨by decide,
   (write_object_preconditions (constHash csumA) .ok .ok repoIdle .file
      (some csumA) sampleInput 6 false "t0").1 (by decide),
   (write_object_preconditions (constHash csumA) .ok .ok repo0 .file
      none sampleInput 6 false "t0").2 rfl rfl⟩

/-- C2: when an expected checksum is supplied, a digest is computed (the
fast path missed, so the input really is read and hashed), and the computed
checksum differs, `write_object` — and so `write_content` and
`write_metadata`, which delegate to it — fails with a corrupt-object error
citing the object kind, the expected checksum and the actual checksum; the
final state equals the initial one (no object placed, the temp file gone
again from `tmp/`), and the trace shows the temp file being unlinked before
the error returns. -/
theorem write_object_corrupt_mismatch (hash : List Nat → String)
    (mres rres : SysRes) (repo : Repo) (objtype : ObjType) (e : String)
    (input : ObjInput) (len : Nat) (t : String)
    (htx : repo.in_transaction = true)
    (hfast : hasLooseObject repo e objtype = false)
    (hsupp : ¬ (objtype = .file ∧ input.content.info.ftype = .special))
    (hmis : hash input.raw ≠ e) :
    writeObject hash mres rres repo objtype (some e) input len true t =
      ⟨.error (.corrupt objtype e (hash input.raw)), repo,
       materializeEvents repo.mode objtype input.content ++ [.unlinkTmp]⟩ := by
  obtain ⟨mode, intx, objs, txr, stats, lock, tmp, devino, refs⟩ := repo
  simp only at htx
  subst htx
  simp [writeObject, fastPathHit, hfast, writeObjectSlow, hsupp,
    checksumMismatch, hmis]

/-- C2 witness: a concrete verified content write whose computed checksum
differs from the expected one fails corrupt, restores the state, and unlinks
its temp file. -/
theorem write_object_corrupt_mismatch_witness :
    repo0.in_transaction = true
    ∧ hasLooseObject repo0 csumA .file = false
    ∧ constHash csumB sampleInput.raw ≠ csumA
    ∧ writeObject (constHash csumB) .ok .ok repo0 .file (some csumA)
        sampleInput 6 true "t0" =
      ⟨.error (.corrupt .file csumA (constHash csumB sampleInput.raw)), repo0,
       materializeEvents repo0.mode .file sampleInput.content ++ [.unlinkTmp]⟩ :=
  ⟨rfl, by decide, by decide,
   write_object_corrupt_mismatch (constHash csumB) .ok .ok repo0 .file csumA
     sampleInput 6 "t0" rfl (by decide) (by decide) (by decide)⟩

/-- C1: a `BARE`-mode `FILE` write that actually places a new object (fast
path missed, checksum verified, object not yet in the store) performs, for a
regular file, exactly write body → `fchownat` → `setxattr` (when xattrs are
present) → `fchmod` → `fsync` → rename into `objects/`, in that strict
order; and `fchmod` is never applied when the `FILE` object is a symlink. -/
theorem bare_file_write_event_order (hash : List Nat → String) (mres : SysRes)
    (repo : Repo) (expected : Option String) (input : ObjInput) (len : Nat)
    (wantCsum : Bool) (t : String)
    (hm : mres ≠ .errOther)
    (htx : repo.in_transaction = true)
    (hmode : repo.mode = .bare)
    (hargs : ¬ (expected = none ∧ wantCsum = false))
    (hfast : fastPathHit repo .file expected = false)
    (hmis : checksumMismatch hash expected wantCsum input = false)
    (hnew : hasLooseObject repo (resolvedChecksum hash expected wantCsum input)
        .file = false) :
    (input.content.info.ftype = .regular →
      (writeObject hash mres .ok repo .file expected input len wantCsum t).trace =
        [.writeBody, .fchownat]
          ++ (if input.content.xattrs.isSome then [.setxattr] else [])
          ++ [.fchmod, .fsync, .mkdirLoose, .rename])
    ∧ (input.content.info.ftype = .symlink →
      Event.fchmod ∉
        (writeObject hash mres .ok repo .file expected input len wantCsum t).trace) := by
  obtain ⟨mode, intx, objs, txr, stats, lock, tmp, devino, refs⟩ := repo
  simp only at htx hmode
  subst htx
  subst hmode
  simp only [hasLooseObject] at hnew
  simp only [fastPathHit, hasLooseObject] at hfast
  constructor
  · intro hreg
    simp [writeObject, hargs, fastPathHit, hfast, writeObjectSlow, hreg,
      hmis, materializeEvents, bareAttrEvents, hasLooseObject, hnew,
      commitLooseObjectTrusted, hm]
  · intro hsym
    by_cases hx : input.content.xattrs.isSome <;>
      simp [writeObject, hargs, fastPathHit, hfast, writeObjectSlow, hsym,
        hmis, materializeEvents, bareAttrEvents, hasLooseObject, hnew,
        commitLooseObjectTrusted, hm, hx]

/-- C1 witness: a concrete trusted regular-file write in `BARE` mode (no
xattrs) produces exactly the required operation order, and a concrete
symlink write never applies `fchmod`. -/
theorem bare_file_write_event_order_witness :
    repo0.mode = .bare
    ∧ (writeObject (constHash csumA) .ok .ok repo0 .file (some csumA)
        sampleInput 6 false "t1").trace =
      [.writeBody, .fchownat] ++ (if sampleInput.content.xattrs.isSome
          then [.setxattr] else []) ++ [.fchmod, .fsync, .mkdirLoose, .rename]
    ∧ Event.fchmod ∉
      (writeObject (constHash csumA) .ok .ok repo0 .file (some csumB)
        symlinkInput 3 false "t2").trace :=
  ⟨rfl,
   (bare_file_write_event_order (constHash csumA) .ok repo0 (some csumA)
      sampleInput 6 false "t1" (by decide) rfl rfl (by decide) (by decide)
      (by decide) (by decide)).1 rfl,
   (bare_file_write_event_order (constHash csumA) .ok repo0 (some csumB)
      symlinkInput 3 false "t2" (by decide) rfl rfl (by decide) (by decide)
      (by decide) (by decide)).2 rfl⟩

/-- C6 counterexample: after `prepare_transaction` followed by
`abort_transaction` on a concrete idle repository, the claimed final state
fails to hold — everything holds except that the `transaction` symlink has
not been removed (abort leaves it in place; only commit unlinks it). -/
theorem prepare_abort_lock_counterexample :
    ¬ ((prepareAbortRun repoIdle).in_transaction = false
       ∧ (prepareAbortRun repoIdle).txn_refs = none
       ∧ (prepareAbortRun repoIdle).refs = repoIdle.refs
       ∧ (prepareAbortRun repoIdle).tmp_files = []
       ∧ (prepareAbortRun repoIdle).txn_stats = ({} : Stats)
       ∧ (prepareAbortRun repoIdle).transaction_lock_exists = false) := by
  decide

/-- C6 (amended): after `prepare_transaction` followed by
`abort_transaction`, `in_transaction` is false, the pending refs map is
empty, no ref changes have been applied, `tmp/` is empty and the statistics
are all zero — but the `transaction` symlink at the repository root remains
in place (abort does not unlink it; only a successful commit does). -/
theorem prepare_abort_state (repo : Repo) (h : repo.in_transaction = false) :
    ∃ resumed,
      ostree_repo_prepare_transaction repo =
        .ok ({ repo with txn_stats := ({} : Stats), in_transaction := true,
                         transaction_lock_exists := true }, resumed)
      ∧ ostree_repo_abort_transaction true
          { repo with txn_stats := ({} : Stats), in_transaction := true,
                      transaction_lock_exists := true } =
        (.ok (), { repo with
            txn_stats := {},
            in_transaction := false,
            transaction_lock_exists := true,
            tmp_files := [],
            txn_refs := none,
            loose_object_devino_hash :=
              repo.loose_object_devino_hash.map (fun _ => []) }) :=
  ⟨repo.transaction_lock_exists,
   by simp [ostree_repo_prepare_transaction, h],
   by simp [ostree_repo_abort_transaction]⟩

/-- C6 witness: the amended prepare → abort scenario on a concrete idle
repository. -/
theorem prepare_abort_state_witness :
    repoIdle.in_transaction = false
    ∧ ∃ resumed,
      ostree_repo_prepare_transaction repoIdle =
        .ok ({ repoIdle with txn_stats := ({} : Stats), in_transaction := true,
                             transaction_lock_exists := true }, resumed)
      ∧ ostree_repo_abort_transaction true
          { repoIdle with txn_stats := ({} : Stats), in_transaction := true,
                          transaction_lock_exists := true } =
        (.ok (), { repoIdle with
            txn_stats := {},
            in_transaction := false,
            transaction_lock_exists := true,
            tmp_files := [],
            txn_refs := none,
            loose_object_devino_hash :=
              repoIdle.loose_object_devino_hash.map (fun _ => []) }) :=
  ⟨rfl, prepare_abort_state repoIdle rfl⟩

/-- C7 counterexample: on a concrete in-transaction repository,
`commit_transaction` whose final symlink unlink fails returns an error, yet
the repository is no longer in-transaction — refuting the claim that every
failing commit leaves the repository in-transaction (the flag is cleared
before the unlink). -/
theorem commit_unlink_failure_counterexample :
    (ostree_repo_commit_transaction true true false repo0).1 = .error .io
    ∧ ¬ ((ostree_repo_commit_transaction true true false repo0).2.in_transaction = true) := by
  decide

/-- C7 (amended): a `commit_transaction` that fails while cleaning `tmp/` or
while applying the pending ref updates leaves the repository in-transaction,
and a subsequent `abort_transaction` succeeds and closes the transaction; a
failure at the final symlink unlink happens after `in_transaction` has
already been cleared (a subsequent abort still returns success, as a no-op). -/
theorem commit_failure_transaction_state (repo : Repo)
    (htx : repo.in_transaction = true) :
    ((∀ u l, ostree_repo_commit_transaction false u l repo = (.error .io, repo))
      ∧ (ostree_repo_abort_transaction true repo).1 = .ok ()
      ∧ (ostree_repo_abort_transaction true repo).2.in_transaction = false)
    ∧ (∀ pending, repo.txn_refs = some pending → ∀ l,
        (ostree_repo_commit_transaction true false l repo).1 = .error .remote
        ∧ (ostree_repo_commit_transaction true false l repo).2.in_transaction = true
        ∧ (ostree_repo_abort_transaction true
            (ostree_repo_commit_transaction true false l repo).2).1 = .ok ()
        ∧ (ostree_repo_abort_transaction true
            (ostree_repo_commit_transaction true false l repo).2).2.in_transaction = false)
    ∧ ((ostree_repo_commit_transaction true true false repo).1 = .error .io
        ∧ (ostree_repo_commit_transaction true true false repo).2.in_transaction = false
        ∧ (ostree_repo_abort_transaction true
            (ostree_repo_commit_transaction true true false repo).2).1 = .ok ()) := by
  refine ⟨⟨fun u l => ?_, ?_, ?_⟩, fun pending hp l => ?_, ?_⟩
  · simp [ostree_repo_commit_transaction, htx]
  · simp [ostree_repo_abort_transaction, htx]
  · simp [ostree_repo_abort_transaction, htx]
  · refine ⟨?_, ?_, ?_, ?_⟩ <;>
      simp [ostree_repo_commit_transaction, htx, hp, ostree_repo_abort_transaction]
  · cases hrefs : repo.txn_refs <;>
      refine ⟨?_, ?_, ?_⟩ <;>
      simp [ostree_repo_commit_transaction, htx, hrefs, commitTransactionFinish,
        ostree_repo_abort_transaction]

/-- A concrete in-transaction repository with one pending ref update. -/
def repoPending : Repo :=
  { repo0 with txn_refs := some [("main", some csumA)] }

/-- C7 witness: on a concrete repository with a pending ref, a commit whose
ref updater fails returns the error, leaves the repository in-transaction,
and a subsequent abort succeeds and closes the transaction. -/
theorem commit_failure_transaction_state_witness :
    repoPending.in_transaction = true
    ∧ ((ostree_repo_commit_transaction true false true repoPending).1 = .error .remote
       ∧ (ostree_repo_commit_transaction true false true repoPending).2.in_transaction = true
       ∧ (ostree_repo_abort_transaction true
           (ostree_repo_commit_transaction true false true repoPending).2).1 = .ok ()
       ∧ (ostree_repo_abort_transaction true
           (ostree_repo_commit_transaction true false true repoPending).2).2.in_transaction = false) :=
  ⟨rfl, (commit_failure_transaction_state repoPending rfl).2.1
          [("main", some csumA)] rfl true⟩

/-- C4 counterexample: two `write_content_trusted` calls with the same
checksum and 6-byte content in one bare-mode transaction do not produce the
claimed statistics: the duplicate call returns on the already-have-object
fast path before the stats block, so `content_objects_total` ends at 1, not
2 (everything else in the claim holds). -/
theorem trusted_duplicate_stats_counterexample :
    ¬ ((twoTrustedWrites (constHash csumB) repo0 csumA sampleInput 6 "t1" "t2").1.res = .ok none
       ∧ (twoTrustedWrites (constHash csumB) repo0 csumA sampleInput 6 "t1" "t2").2.res = .ok none
       ∧ (twoTrustedWrites (constHash csumB) repo0 csumA sampleInput 6 "t1" "t2").2.repo.objects
           = [(csumA, ObjType.file)]
       ∧ (twoTrustedWrites (constHash csumB) repo0 csumA sampleInput 6 "t1" "t2").2.repo.txn_stats.content_objects_total = 2
       ∧ (twoTrustedWrites (constHash csumB) repo0 csumA sampleInput 6 "t1" "t2").2.repo.txn_stats.content_objects_written = 1
       ∧ (twoTrustedWrites (constHash csumB) repo0 csumA sampleInput 6 "t1" "t2").2.repo.txn_stats.content_bytes_written = 6) := by
  decide

/-- C4 (amended): under `BARE` mode, calling `write_content_trusted` twice
in one transaction with the same fresh checksum and content succeeds both
times and leaves exactly one object file for that checksum; the stats gain
`content_objects_total` +1 (the duplicate call short-circuits before the
stats update), `content_objects_written` +1 and `content_bytes_written`
+length. -/
theorem trusted_duplicate_write_stats (hash : List Nat → String) (repo : Repo)
    (H : String) (input : ObjInput) (len : Nat) (t1 t2 : String)
    (htx : repo.in_transaction = true)
    (hmode : repo.mode = .bare)
    (hreg : input.content.info.ftype = .regular)
    (hnew : hasLooseObject repo H .file = false) :
    (twoTrustedWrites hash repo H input len t1 t2).1.res = .ok none
    ∧ (twoTrustedWrites hash repo H input len t1 t2).2.res = .ok none
    ∧ (twoTrustedWrites hash repo H input len t1 t2).2.repo.objects
        = (H, ObjType.file) :: repo.objects
    ∧ (twoTrustedWrites hash repo H input len t1 t2).2.repo.objects.count (H, ObjType.file)
        = repo.objects.count (H, ObjType.file) + 1
    ∧ (twoTrustedWrites hash repo H input len t1 t2).2.repo.txn_stats.content_objects_total
        = repo.txn_stats.content_objects_total + 1
    ∧ (twoTrustedWrites hash repo H input len t1 t2).2.repo.txn_stats.content_objects_written
        = repo.txn_stats.content_objects_written + 1
    ∧ (twoTrustedWrites hash repo H input len t1 t2).2.repo.txn_stats.content_bytes_written
        = repo.txn_stats.content_bytes_written + len := by
  obtain ⟨mode, intx, objs, txr, stats, lock, tmp, devino, refs⟩ := repo
  simp only at htx hmode
  subst htx
  subst hmode
  simp only [hasLooseObject] at hnew
  refine ⟨?_, ?_, ?_, ?_, ?_, ?_, ?_⟩ <;>
    simp [twoTrustedWrites, ostree_repo_write_content_trusted, writeObject,
      fastPathHit, hasLooseObject, writeObjectSlow, hreg, checksumMismatch,
      resolvedChecksum, materializeEvents, bareAttrEvents,
      commitLooseObjectTrusted, bumpStats, ObjType.isMeta, hnew,
      List.count_cons]

/-- C4 witness: the amended duplicate-trusted-write scenario on a concrete
fresh bare-mode repository: both calls succeed, one object file, stats
(total, written, bytes) = (1, 1, 6). -/
theorem trusted_duplicate_write_stats_witness :
    hasLooseObject repo0 csumA .file = false
    ∧ ((twoTrustedWrites (constHash csumB) repo0 csumA sampleInput 6 "t1" "t2").1.res = .ok none
       ∧ (twoTrustedWrites (constHash csumB) repo0 csumA sampleInput 6 "t1" "t2").2.res = .ok none
       ∧ (twoTrustedWrites (constHash csumB) repo0 csumA sampleInput 6 "t1" "t2").2.repo.objects
           = (csumA, ObjType.file) :: repo0.objects
       ∧ (twoTrustedWrites (constHash csumB) repo0 csumA sampleInput 6 "t1" "t2").2.repo.objects.count (csumA, ObjType.file)
           = repo0.objects.count (csumA, ObjType.file) + 1
       ∧ (twoTrustedWrites (constHash csumB) repo0 csumA sampleInput 6 "t1" "t2").2.repo.txn_stats.content_objects_total
           = repo0.txn_stats.content_objects_total + 1
       ∧ (twoTrustedWrites (constHash csumB) repo0 csumA sampleInput 6 "t1" "t2").2.repo.txn_stats.content_objects_written
           = repo0.txn_stats.content_objects_written + 1
       ∧ (twoTrustedWrites (constHash csumB) repo0 csumA sampleInput 6 "t1" "t2").2.repo.txn_stats.content_bytes_written
           = repo0.txn_stats.content_bytes_written + 6) :=
  ⟨by decide,
   trusted_duplicate_write_stats (constHash csumB) repo0 csumA sampleInput 6
     "t1" "t2" rfl rfl rfl (by decide)⟩

/-- C5 counterexample: on concrete stores, `scan_loose_devino` records an
entry whose 62-character stem is not hex (`zzz…z.file` in `BARE` mode), and
skips a `.filez` object in `ARCHIVE` mode (both modes fall through to the
same `".file"` suffix test) — refuting both the mode-matched-suffix and the
hex-stem parts of the claim. -/
theorem scan_devino_suffix_counterexample :
    scanLooseDevino [(.bare, [⟨['a', 'b'],
        [⟨List.replicate 62 'z' ++ fileSuffix, false, 3, 4⟩]⟩])] []
      = [((3, 4), ['a', 'b'] ++ List.replicate 62 'z')]
    ∧ scanLooseDevino [(.archiveZ2, [⟨['a', 'b'],
        [⟨List.replicate 62 'a' ++ ['.', 'f', 'i', 'l', 'e', 'z'], false, 1, 2⟩]⟩])] []
      = [] := by
  decide

/-- Soundness of one scan step: anything in the updated cache was already
there or comes from an accepted entry, recorded under its (dev, ino) with
checksum `dirname ++ stem`. -/
theorem scanEntryStep_mem (m : RepoMode) (dn : List Char)
    (cache : List ((Nat × Nat) × List Char)) (e : DirEntryInfo)
    (k : Nat × Nat) (v : List Char)
    (h : (k, v) ∈ scanEntryStep m dn cache e) :
    (k, v) ∈ cache ∨ (scanAccepts e ∧ k = (e.dev, e.ino) ∧ v = dn ++ e.name.take 62) := by
  unfold scanEntryStep at h
  split at h
  · exact Or.inl h
  · split at h
    · exact Or.inl h
    · split at h
      · exact Or.inl h
      · rename_i hdir hskip hlen
        unfold devinoReplace at h
        rcases List.mem_cons.mp h with heq | hmem
        · refine Or.inr ⟨⟨?_, ?_, ?_⟩, ?_, ?_⟩
          · exact Bool.not_eq_true e.is_dir ▸ hdir
          · cases m <;>
              simpa [scanSuffixSkip] using hskip
          · omega
          · exact congrArg Prod.fst heq
          · exact congrArg Prod.snd heq
        · exact Or.inl (List.mem_filter.mp hmem).1

/-- Soundness of the per-directory entry fold. -/
theorem scanEntriesFold_mem (m : RepoMode) (dn : List Char)
    (entries : List DirEntryInfo) :
    ∀ cache k v, (k, v) ∈ entries.foldl (scanEntryStep m dn) cache →
      (k, v) ∈ cache ∨ ∃ e ∈ entries,
        scanAccepts e ∧ k = (e.dev, e.ino) ∧ v = dn ++ e.name.take 62 := by
  induction entries with
  | nil => intro cache k v h; exact Or.inl h
  | cons e rest ih =>
      intro cache k v h
      rcases ih (scanEntryStep m dn cache e) k v h with h1 | ⟨e1, he1, hacc⟩
      · rcases scanEntryStep_mem m dn cache e k v h1 with h2 | h2
        · exact Or.inl h2
        · exact Or.inr ⟨e, List.mem_cons_self e rest, h2⟩
      · exact Or.inr ⟨e1, List.mem_cons_of_mem e he1, hacc⟩

/-- Soundness of the per-repository directory fold. -/
theorem scanDirsFold_mem (m : RepoMode) (dirs : List LooseObjDir) :
    ∀ cache k v, (k, v) ∈ scanLooseDevinoDirs m dirs cache →
      (k, v) ∈ cache ∨ ∃ d ∈ dirs, ∃ e ∈ d.entries,
        scanAccepts e ∧ k = (e.dev, e.ino) ∧ v = d.dirname ++ e.name.take 62 := by
  induction dirs with
  | nil => intro cache k v h; exact Or.inl h
  | cons d rest ih =>
      intro cache k v h
      rcases ih (d.entries.foldl (scanEntryStep m d.dirname) cache) k v h with
        h1 | ⟨d1, hd1, rest1⟩
      · rcases scanEntriesFold_mem m d.dirname d.entries cache k v h1 with h2 | ⟨e, he, hacc⟩
        · exact Or.inl h2
        · exact Or.inr ⟨d, List.mem_cons_self d rest, e, he, hacc⟩
      · exact Or.inr ⟨d1, List.mem_cons_of_mem d hd1, rest1⟩

/-- Soundness over the whole repository chain. -/
theorem scanLooseDevino_mem (chain : List (RepoMode × List LooseObjDir)) :
    ∀ cache k v, (k, v) ∈ scanLooseDevino chain cache →
      (k, v) ∈ cache ∨ ∃ p ∈ chain, ∃ d ∈ p.2, ∃ e ∈ d.entries,
        scanAccepts e ∧ k = (e.dev, e.ino) ∧ v = d.dirname ++ e.name.take 62 := by
  induction chain with
  | nil => intro cache k v h; exact Or.inl h
  | cons p parents ih =>
      intro cache k v h
      rcases scanDirsFold_mem p.1 p.2 (scanLooseDevino parents cache) k v h with
        h1 | ⟨d, hd, e, he, hacc⟩
      · rcases ih cache k v h1 with h2 | ⟨p1, hp1, rest1⟩
        · exact Or.inl h2
        · exact Or.inr ⟨p1, List.mem_cons_of_mem p hp1, rest1⟩
      · exact Or.inr ⟨p, List.mem_cons_self p parents, d, hd, e, he, hacc⟩

/-- A key present in the cache survives one scan step. -/
theorem scanEntryStep_key_survives (m : RepoMode) (dn : List Char)
    (cache : List ((Nat × Nat) × List Char)) (e : DirEntryInfo) (k : Nat × Nat)
    (h : ∃ w, (k, w) ∈ cache) : ∃ w, (k, w) ∈ scanEntryStep m dn cache e := by
  obtain ⟨w, hw⟩ := h
  unfold scanEntryStep
  split
  · exact ⟨w, hw⟩
  · split
    · exact ⟨w, hw⟩
    · split
      · exact ⟨w, hw⟩
      · by_cases hk : k = (e.dev, e.ino)
        · exact ⟨dn ++ e.name.take 62, hk ▸ List.mem_cons_self _ _⟩
        · refine ⟨w, List.mem_cons_of_mem _ (List.mem_filter.mpr ⟨hw, ?_⟩)⟩
          simpa using hk

/-- An accepted entry's (dev, ino) key is present after its scan step. -/
theorem scanEntryStep_key_intro (m : RepoMode) (dn : List Char)
    (cache : List ((Nat × Nat) × List Char)) (e : DirEntryInfo)
    (hacc : scanAccepts e) : ∃ w, ((e.dev, e.ino), w) ∈ scanEntryStep m dn cache e := by
  obtain ⟨hdir, hsuf, hlen⟩ := hacc
  unfold scanEntryStep
  have hskip : scanSuffixSkip m e.name = false := by
    cases m <;> simp [scanSuffixSkip, hsuf]
  simp only [hdir, hskip, hlen]
  exact ⟨dn ++ e.name.take 62, List.mem_cons_self _ _⟩

/-- A key present in the cache survives the per-directory entry fold. -/
theorem scanEntriesFold_key_survives (m : RepoMode) (dn : List Char)
    (entries : List DirEntryInfo) :
    ∀ cache k, (∃ w, (k, w) ∈ cache) →
      ∃ w, (k, w) ∈ entries.foldl (scanEntryStep m dn) cache := by
  induction entries with
  | nil => intro cache k h; exact h
  | cons e rest ih =>
      intro cache k h
      exact ih (scanEntryStep m dn cache e) k (scanEntryStep_key_survives m dn cache e k h)

/-- An accepted entry of the directory contributes its key to the fold. -/
theorem scanEntriesFold_key_intro (m : RepoMode) (dn : List Char)
    (entries : List DirEntryInfo) :
    ∀ cache e, e ∈ entries → scanAccepts e →
      ∃ w, ((e.dev, e.ino), w) ∈ entries.foldl (scanEntryStep m dn) cache := by
  induction entries with
  | nil => intro cache e he; cases he
  | cons e1 rest ih =>
      intro cache e he hacc
      rcases List.mem_cons.mp he with heq | hmem
      · subst heq
        exact scanEntriesFold_key_survives m dn rest (scanEntryStep m dn cache e) _
          (scanEntryStep_key_intro m dn cache e hacc)
      · exact ih (scanEntryStep m dn cache e1) e hmem hacc

/-- A key present in the cache survives the per-repository directory fold. -/
theorem scanDirsFold_key_survives (m : RepoMode) (dirs : List LooseObjDir) :
    ∀ cache k, (∃ w, (k, w) ∈ cache) →
      ∃ w, (k, w) ∈ scanLooseDevinoDirs m dirs cache := by
  induction dirs with
  | nil => intro cache k h; exact h
  | cons d rest ih =>
      intro cache k h
      exact ih (d.entries.foldl (scanEntryStep m d.dirname) cache) k
        (scanEntriesFold_key_survives m d.dirname d.entries cache k h)

/-- An accepted entry of some directory contributes its key to the
per-repository fold. -/
theorem scanDirsFold_key_intro (m : RepoMode) (dirs : List LooseObjDir) :
    ∀ cache d e, d ∈ dirs → e ∈ d.entries → scanAccepts e →
      ∃ w, ((e.dev, e.ino), w) ∈ scanLooseDevinoDirs m dirs cache := by
  induction dirs with
  | nil => intro cache d e hd; cases hd
  | cons d1 rest ih =>
      intro cache d e hd he hacc
      rcases List.mem_cons.mp hd with heq | hmem
      · subst heq
        exact scanDirsFold_key_survives m rest _ _
          (scanEntriesFold_key_intro m d.dirname d.entries cache e he hacc)
      · exact ih (d1.entries.foldl (scanEntryStep m d1.dirname) cache) d e hmem he hacc

/-- An accepted entry anywhere in the chain contributes its key to the
final devino cache. -/
theorem scanLooseDevino_key_intro (chain : List (RepoMode × List LooseObjDir)) :
    ∀ cache p d e, p ∈ chain → d ∈ p.2 → e ∈ d.entries → scanAccepts e →
      ∃ w, ((e.dev, e.ino), w) ∈ scanLooseDevino chain cache := by
  induction chain with
  | nil => intro cache p d e hp; cases hp
  | cons p1 parents ih =>
      intro cache p d e hp hd he hacc
      rcases List.mem_cons.mp hp with heq | hmem
      · subst heq
        exact scanDirsFold_key_intro p.1 p.2 (scanLooseDevino parents cache) d e hd he hacc
      · exact scanDirsFold_key_survives p1.1 p1.2 (scanLooseDevino parents cache) _
          (ih cache p d e hmem hd he hacc)

/-- C5 (amended): over the whole repository chain, the devino cache build
records entries only for non-directory children whose name ends in `".file"`
— in both `BARE` and `ARCHIVE` mode, since `scan_loose_devino` applies the
same suffix test to both — and whose stem before the last dot has exactly 62
characters (no hex check is performed); every recorded entry maps some
child's (device, inode) to the checksum formed by the 2-character directory
name followed by the 62-character stem, and conversely every accepted child
has its (device, inode) key present in the final cache. -/
theorem scan_devino_membership (chain : List (RepoMode × List LooseObjDir)) :
    (∀ k v, (k, v) ∈ scanLooseDevino chain [] →
      ∃ p ∈ chain, ∃ d ∈ p.2, ∃ e ∈ d.entries,
        scanAccepts e ∧ k = (e.dev, e.ino) ∧ v = d.dirname ++ e.name.take 62)
    ∧ (∀ p ∈ chain, ∀ d ∈ p.2, ∀ e ∈ d.entries, scanAccepts e →
        ∃ w, ((e.dev, e.ino), w) ∈ scanLooseDevino chain []) := by
  constructor
  · intro k v h
    rcases scanLooseDevino_mem chain [] k v h with h1 | h1
    · cases h1
    · exact h1
  · intro p hp d hd e he hacc
    exact scanLooseDevino_key_intro chain [] p d e hp hd he hacc

/-- C5 witness: a concrete accepted `".file"` child of a concrete one-repo
chain, whose (device, inode) key ends up in the cache. -/
theorem scan_devino_membership_witness :
    scanAccepts ⟨List.replicate 62 'a' ++ fileSuffix, false, 7, 8⟩
    ∧ ∃ w, ((7, 8), w) ∈ scanLooseDevino
        [(.bare, [⟨['a', 'b'],
          [⟨List.replicate 62 'a' ++ fileSuffix, false, 7, 8⟩]⟩])] [] :=
  ⟨by decide,
   (scan_devino_membership
      [(.bare, [⟨['a', 'b'], [⟨List.replicate 62 'a' ++ fileSuffix, false, 7, 8⟩]⟩])]).2
     (.bare, [⟨['a', 'b'], [⟨List.replicate 62 'a' ++ fileSuffix, false, 7, 8⟩]⟩])
     (by decide)
     ⟨['a', 'b'], [⟨List.replicate 62 'a' ++ fileSuffix, false, 7, 8⟩]⟩
     (by decide)
     ⟨List.replicate 62 'a' ++ fileSuffix, false, 7, 8⟩
     (by decide) (by decide)⟩

/-- Association lookups agree across permutations of a map with distinct
keys. -/
theorem alookup_perm {β : Type} {l1 l2 : List (String × β)} (hp : l1.Perm l2) :
    (l1.map Prod.fst).Nodup → ∀ k, alookup k l1 = alookup k l2 := by
  induction hp with
  | nil => intro _ k; rfl
  | cons x p ih =>
      intro hnd k
      simp only [List.map_cons, List.nodup_cons] at hnd
      simp only [alookup]
      rw [ih hnd.2 k]
  | swap x y l =>
      intro hnd k
      simp only [List.map_cons, List.nodup_cons, List.mem_cons] at hnd
      have hxy : y.1 ≠ x.1 := fun h => hnd.1 (Or.inl h)
      by_cases h1 : x.1 = k <;> by_cases h2 : y.1 = k <;>
        simp [alookup, h1, h2]
      exact absurd (h2.trans h1.symm) hxy
  | trans p1 p2 ih1 ih2 =>
      intro hnd k
      rw [ih1 hnd k, ih2 ((p1.map Prod.fst).nodup_iff.mp hnd) k]

/-- Sorting with `strcmp` is permutation-invariant: two permuted name lists
have equal sorts. -/
theorem insertionSort_congr_perm (l1 l2 : List String) (h : l1.Perm l2) :
    List.insertionSort (· ≤ ·) l1 = List.insertionSort (· ≤ ·) l2 :=
  List.eq_of_perm_of_sorted
    ((List.perm_insertionSort _ l1).trans (h.trans (List.perm_insertionSort _ l2).symm))
    (List.sorted_insertionSort _ l1) (List.sorted_insertionSort _ l2)

/-- C8: two mutable-tree nodes whose file maps and subdirectory maps carry
the same multisets of (name, file checksum) and (name, contents checksum,
metadata checksum) serialize to identical `DIR_TREE` variants, regardless of
hash-table iteration order: both lists are sorted by name before
serialization. -/
theorem tree_variant_deterministic (f1 f2 : List (String × String))
    (d1 d2 : List (String × String × String))
    (hfnd : (f1.map Prod.fst).Nodup) (hdnd : (d1.map Prod.fst).Nodup)
    (hf : f1.Perm f2) (hd : d1.Perm d2) :
    writeMtreeVariant f1 d1 = writeMtreeVariant f2 d2 := by
  have hfun_f : (fun name => (name, (alookup name f1).getD "")) =
      (fun name => (name, (alookup name f2).getD "")) :=
    funext fun name => by rw [alookup_perm hf hfnd name]
  have hndC : ((d1.map (fun d => (d.1, d.2.1))).map Prod.fst).Nodup := by
    rw [List.map_map]; exact hdnd
  have hndM : ((d1.map (fun d => (d.1, d.2.2))).map Prod.fst).Nodup := by
    rw [List.map_map]; exact hdnd
  have hfun_d : (fun name => (name,
        (alookup name (d1.map (fun d => (d.1, d.2.1)))).getD "",
        (alookup name (d1.map (fun d => (d.1, d.2.2)))).getD "")) =
      (fun name => (name,
        (alookup name (d2.map (fun d => (d.1, d.2.1)))).getD "",
        (alookup name (d2.map (fun d => (d.1, d.2.2)))).getD "")) :=
    funext fun name => by
      rw [alookup_perm (hd.map _) hndC name, alookup_perm (hd.map _) hndM name]
  have hsortf : List.insertionSort (· ≤ ·) (f1.map Prod.fst) =
      List.insertionSort (· ≤ ·) (f2.map Prod.fst) :=
    insertionSort_congr_perm _ _ (hf.map _)
  have hsortd : List.insertionSort (· ≤ ·)
        ((d1.map (fun d => (d.1, d.2.2))).map Prod.fst) =
      List.insertionSort (· ≤ ·) ((d2.map (fun d => (d.1, d.2.2))).map Prod.fst) :=
    insertionSort_congr_perm _ _ ((hd.map _).map _)
  simp only [writeMtreeVariant, create_tree_variant_from_hashes]
  rw [hsortf, hfun_f, hsortd, hfun_d]

/-- C8 witness: two concrete nodes with permuted file and subdir maps
serialize identically. -/
theorem tree_variant_deterministic_witness :
    [("b", "x"), ("a", "y")].Perm [("a", "y"), ("b", "x")]
    ∧ [("d", "c1", "m1"), ("c", "c2", "m2")].Perm [("c", "c2", "m2"), ("d", "c1", "m1")]
    ∧ writeMtreeVariant [("b", "x"), ("a", "y")] [("d", "c1", "m1"), ("c", "c2", "m2")] =
      writeMtreeVariant [("a", "y"), ("b", "x")] [("c", "c2", "m2"), ("d", "c1", "m1")] :=
  ⟨by decide, by decide,
   tree_variant_deterministic [("b", "x"), ("a", "y")] [("a", "y"), ("b", "x")]
     [("d", "c1", "m1"), ("c", "c2", "m2")] [("c", "c2", "m2"), ("d", "c1", "m1")]
     (by decide) (by decide) (by decide) (by decide)⟩

/-- Filtering out a different key does not change a lookup. -/
theorem alookup_filter_ne {β : Type} (r k : String) (h : r ≠ k) :
    ∀ m : List (String × β),
      alookup k (m.filter (fun p => decide (p.1 ≠ r))) = alookup k m := by
  intro m
  induction m with
  | nil => rfl
  | cons p rest ih =>
      simp only [ne_eq, decide_not] at ih ⊢
      by_cases hp : p.1 = r
      · have hpk : ¬ p.1 = k := fun hk => h (hp ▸ hk)
        simp [List.filter_cons, hp, alookup, hpk, ih, h]
      · by_cases hk : p.1 = k <;>
          simp [List.filter_cons, hp, alookup, hk, ih, h, Ne.symm h]

/-- Filtering out a key removes its binding entirely. -/
theorem alookup_filter_self {β : Type} (k : String) :
    ∀ m : List (String × β),
      alookup k (m.filter (fun p => decide (p.1 ≠ k))) = none := by
  intro m
  induction m with
  | nil => rfl
  | cons p rest ih =>
      simp only [ne_eq, decide_not] at ih ⊢
      by_cases hp : p.1 = k <;> simp [List.filter_cons, hp, alookup, ih]

/-- A key absent from the key list has no binding. -/
theorem alookup_none_of_not_mem (k : String) {β : Type} :
    ∀ m : List (String × β), k ∉ m.map Prod.fst → alookup k m = none := by
  intro m
  induction m with
  | nil => intro _; rfl
  | cons p rest ih =>
      intro h
      simp only [List.map_cons, List.mem_cons] at h
      have h1 : ¬ p.1 = k := fun hk => h (Or.inl hk.symm)
      simp [alookup, h1, ih fun hk => h (Or.inr hk)]

/-- `g_hash_table_replace` semantics: the new binding shadows, everything
else is unchanged. -/
theorem alookup_hashReplace (m : List (String × Option String)) (r : String)
    (c : Option String) (k : String) :
    alookup k (hashReplace m r c) = if r = k then some c else alookup k m := by
  by_cases h : r = k
  · simp [hashReplace, alookup, h]
  · rw [if_neg h, ← alookup_filter_ne r k h m]
    simp [hashReplace, alookup, h]

/-- `hashReplace` keeps the keys distinct. -/
theorem hashReplace_keys_nodup (m : List (String × Option String)) (r : String)
    (c : Option String) (h : (m.map Prod.fst).Nodup) :
    ((hashReplace m r c).map Prod.fst).Nodup := by
  simp only [hashReplace, List.map_cons, List.nodup_cons]
  constructor
  · intro hmem
    rcases List.mem_map.mp hmem with ⟨p, hp, hfst⟩
    have := (List.mem_filter.mp hp).2
    simp at this
    exact this hfst
  · exact ((List.filter_sublist m).map Prod.fst).nodup h

/-- The pending map built by a call sequence keeps keys distinct. -/
theorem pendingRefsAfter_keys_nodup :
    ∀ (ops : List RefOp) (m : List (String × Option String)),
      (m.map Prod.fst).Nodup → ((pendingRefsAfter m ops).map Prod.fst).Nodup := by
  intro ops
  induction ops with
  | nil => intro m h; exact h
  | cons op rest ih =>
      intro m h
      exact ih (hashReplace m op.key op.csum) (hashReplace_keys_nodup m op.key op.csum h)

/-- Lookup in the pending map after a call sequence: the most recent call
for the refspec wins, else the initial binding remains. -/
theorem alookup_pendingRefsAfter :
    ∀ (ops : List RefOp) (m : List (String × Option String)) (k : String),
      alookup k (pendingRefsAfter m ops) =
        (match lastCsumFor ops k with
         | some c => some c
         | none => alookup k m) := by
  intro ops
  induction ops with
  | nil => intro m k; rfl
  | cons op rest ih =>
      intro m k
      simp only [pendingRefsAfter, lastCsumFor]
      rw [ih (hashReplace m op.key op.csum) k]
      cases hrest : lastCsumFor rest k
      · rw [alookup_hashReplace]
        by_cases hk : op.key = k <;> simp [hk]
      · simp

/-- A successful ref-set sequence: inside a transaction every call succeeds
and only `txn_refs` evolves. -/
theorem applyRefOps_ok :
    ∀ (ops : List RefOp) (repo : Repo), repo.in_transaction = true →
      applyRefOps repo ops = .ok (refOpsResult repo ops) := by
  intro ops
  induction ops with
  | nil => intro repo _; rfl
  | cons op rest ih =>
      intro repo htx
      cases op with
      | set_refspec r c =>
          simp only [applyRefOps, ostree_repo_transaction_set_refspec, htx,
            refOpsResult, RefOp.key, RefOp.csum]
          simp only [Bool.true_eq_false, if_false]
          exact ih _ rfl
      | set_ref rem ref c =>
          cases rem with
          | none =>
              simp only [applyRefOps, ostree_repo_transaction_set_ref, htx,
                refOpsResult, RefOp.key, RefOp.csum]
              simp only [Bool.true_eq_false, if_false]
              exact ih _ rfl
          | some remote =>
              simp only [applyRefOps, ostree_repo_transaction_set_ref, htx,
                refOpsResult, RefOp.key, RefOp.csum]
              simp only [Bool.true_eq_false, if_false]
              exact ih _ rfl

/-- `refOpsResult` touches only `txn_refs`. -/
theorem refOpsResult_fields :
    ∀ (ops : List RefOp) (repo : Repo),
      (refOpsResult repo ops).in_transaction = repo.in_transaction
      ∧ (refOpsResult repo ops).refs = repo.refs := by
  intro ops
  induction ops with
  | nil => intro repo; exact ⟨rfl, rfl⟩
  | cons op rest ih => intro repo; exact ih _

/-- The pending map accumulated by `refOpsResult`. -/
theorem ensureTxnRefs_refOpsResult :
    ∀ (ops : List RefOp) (repo : Repo),
      ensureTxnRefs (refOpsResult repo ops) = pendingRefsAfter (ensureTxnRefs repo) ops := by
  intro ops
  induction ops with
  | nil => intro repo; rfl
  | cons op rest ih => intro repo; exact ih _

/-- A fully successful commit applies exactly the pending map to the refs
namespace (an absent map applies nothing, like an empty one). -/
theorem commit_refs_applies_pending (repo : Repo) (htx : repo.in_transaction = true) :
    (ostree_repo_commit_transaction true true true repo).2.refs =
      updateRefs repo.refs (ensureTxnRefs repo) := by
  cases hrefs : repo.txn_refs <;>
    simp [ostree_repo_commit_transaction, htx, hrefs, commitTransactionFinish,
      ensureTxnRefs, updateRefs]

/-- One ref update read back: the updated refspec maps to its new checksum
(or is gone when deleted), other refspecs are untouched. -/
theorem alookup_refsApplyOne (refs : List (String × String))
    (u : String × Option String) (k : String) :
    alookup k (refsApplyOne refs u) =
      if u.1 = k then u.2 else alookup k refs := by
  cases hc : u.2 with
  | some c =>
      by_cases hk : u.1 = k
      · simp [refsApplyOne, hc, alookup, hk]
      · rw [if_neg hk, ← alookup_filter_ne u.1 k hk refs]
        simp [refsApplyOne, hc, alookup, hk]
  | none =>
      by_cases hk : u.1 = k
      · rw [if_pos hk, ← hk]
        rw [show refsApplyOne refs u = refs.filter (fun p => decide (p.1 ≠ u.1)) from by
              simp [refsApplyOne, hc]]
        exact alookup_filter_self u.1 refs
      · rw [if_neg hk, ← alookup_filter_ne u.1 k hk refs]
        simp [refsApplyOne, hc]

/-- Applying a distinct-keyed update list: each refspec gets its recorded
checksum (set or delete), everything else is untouched. -/
theorem updateRefs_alookup :
    ∀ (updates : List (String × Option String)) (refs : List (String × String))
      (k : String), ((updates.map Prod.fst).Nodup) →
      alookup k (updateRefs refs updates) =
        (match alookup k updates with
         | some (some c) => some c
         | some none => none
         | none => alookup k refs) := by
  intro updates
  induction updates with
  | nil => intro refs k _; rfl
  | cons u rest ih =>
      intro refs k hnd
      simp only [List.map_cons, List.nodup_cons] at hnd
      rw [show updateRefs refs (u :: rest) = updateRefs (refsApplyOne refs u) rest from rfl,
          ih (refsApplyOne refs u) k hnd.2, alookup_refsApplyOne refs u k]
      by_cases hk : u.1 = k
      · have hrest : alookup k rest = none :=
          alookup_none_of_not_mem k rest (hk ▸ hnd.1)
        have hcons : alookup k (u :: rest) = some u.2 := by
          cases u with | mk u1 u2 => simp_all [alookup]
        rw [hrest, if_pos hk, hcons]
        cases u.2 <;> rfl
      · have hcons : alookup k (u :: rest) = alookup k rest := by
          cases u with | mk u1 u2 => simp_all [alookup]
        rw [hcons, if_neg hk]

/-- C10: within one transaction, any sequence of `set_ref` / `set_refspec`
calls succeeds; the pending refs map then holds exactly one entry per
refspec, bound to the checksum of the most recent call for that refspec
(null meaning delete); and a successful `commit_transaction` applies
exactly this final mapping to the refs namespace — earlier checksums set
for the same refspec are never applied, and untouched refspecs keep their
previous value. -/
theorem transaction_refs_last_write_wins (repo : Repo) (ops : List RefOp)
    (htx : repo.in_transaction = true) (h0 : repo.txn_refs = none) :
    applyRefOps repo ops = .ok (refOpsResult repo ops)
    ∧ ((ensureTxnRefs (refOpsResult repo ops)).map Prod.fst).Nodup
    ∧ (∀ rs, alookup rs (ensureTxnRefs (refOpsResult repo ops)) = lastCsumFor ops rs)
    ∧ (∀ rs, alookup rs
        (ostree_repo_commit_transaction true true true (refOpsResult repo ops)).2.refs =
        (match lastCsumFor ops rs with
         | some (some c) => some c
         | some none => none
         | none => alookup rs repo.refs)) := by
  have hens : ensureTxnRefs repo = [] := by simp [ensureTxnRefs, h0]
  have hpend : ensureTxnRefs (refOpsResult repo ops) = pendingRefsAfter [] ops := by
    rw [ensureTxnRefs_refOpsResult ops repo, hens]
  refine ⟨applyRefOps_ok ops repo htx, ?_, ?_, ?_⟩
  · rw [hpend]
    exact pendingRefsAfter_keys_nodup ops [] (by simp)
  · intro rs
    rw [hpend, alookup_pendingRefsAfter ops [] rs]
    cases lastCsumFor ops rs <;> rfl
  · intro rs
    have htx2 : (refOpsResult repo ops).in_transaction = true :=
      (refOpsResult_fields ops repo).1.trans htx
    rw [commit_refs_applies_pending (refOpsResult repo ops) htx2, hpend,
        (refOpsResult_fields ops repo).2,
        updateRefs_alookup (pendingRefsAfter [] ops) repo.refs rs
          (pendingRefsAfter_keys_nodup ops [] (by simp)),
        alookup_pendingRefsAfter ops [] rs]
    cases hlast : lastCsumFor ops rs with
    | none => rfl
    | some c => cases c <;> rfl

/-- A concrete call sequence: `main` is set twice (the second wins) and
`origin:dev` is marked for deletion. -/
def opsW : List RefOp :=
  [.set_ref none "main" (some "c1"), .set_refspec "main" (some "c2"),
   .set_ref (some "origin") "dev" none]

/-- C10 witness: on a concrete repository and call sequence, the pending
map holds the most recent checksum for `main`, and after commit the deleted
`origin:dev` refspec has no binding. -/
theorem transaction_refs_last_write_wins_witness :
    repo0.in_transaction = true ∧ repo0.txn_refs = none
    ∧ alookup "main" (ensureTxnRefs (refOpsResult repo0 opsW)) = some (some "c2")
    ∧ alookup "origin:dev"
        (ostree_repo_commit_transaction true true true (refOpsResult repo0 opsW)).2.refs
        = none :=
  ⟨rfl, rfl,
   ((transaction_refs_last_write_wins repo0 opsW rfl rfl).2.2.1 "main").trans (by decide),
   ((transaction_refs_last_write_wins repo0 opsW rfl rfl).2.2.2 "origin:dev").trans
     (by decide)⟩
